import Mathlib

/-!
Verification of the request-scoped memory allocator core
(hphp/runtime/base/memory-manager-inl.h): size-class engine, free lists,
small-object alloc/free accounting, OOM budget checks, stats intervals,
and lifecycle queries.

Machine integers are embedded as Nat (sizes, indices, addresses) and Int
(signed 64-bit counters such as mmUsage); all sizes handled here are far
below 2^64, so unsigned overflow never occurs on the modelled ranges.
-/

namespace HPHP

/-! ## Size-class engine constants.

The boundary constants live in headers outside the excerpted source
(memory-manager.h).  Modelled from the spec: the spec treats them as
configurable policy parameters (quantum shift, sub-steps per doubling,
lookup-table ceiling, class counts); the values below are a consistent
choice matching the conventions described in the source comments
(quantum 16 bytes, four classes per doubling, 4 KiB lookup ceiling). -/

def kLgSmallSizeQuantum : Nat := 4

def kSmallSizeAlign : Nat := 1 <<< kLgSmallSizeQuantum

def kLgSizeClassesPerDoubling : Nat := 2

def kMaxSmallSizeLookup : Nat := 4096

def kNumSizeClasses : Nat := 108

def kNumSmallSizes : Nat := 63

/-- Function fls64Go: `fls64Go fuel n` finds the position of the highest set bit of `n` by
repeated halving, with structural recursion on `fuel`. -/
def fls64Go (fuel n : Nat) : Nat :=
  match fuel with
  | 0 => 0
  | fuel' + 1 => if n < 2 then 0 else fls64Go fuel' (n >>> 1) + 1

/-- Modelled from the spec: `fls64` (hphp/util/bitops.h, outside the
excerpted source) returns the position of the most significant set bit of
a nonzero 64-bit word. -/
def fls64 (n : Nat) : Nat := fls64Go 64 n

/-- Modelled from the spec: the precomputed table `kSizeIndex2Size`
(generated in memory-manager.h, outside the excerpted source).  The
encoding follows the source comment in `computeSize2Index`: the first
`1 <<< kLgSizeClassesPerDoubling` classes are denormal with size
`(index + 1) <<< kLgSmallSizeQuantum`; a normal class stores
`mantissa - 1` in the low `kLgSizeClassesPerDoubling` bits and `exp + 1`
above, and has size
`((1 <<< kLgSizeClassesPerDoubling) + mantissa) <<< (exp + kLgSmallSizeQuantum)`. -/
def kSizeIndex2Size (index : Nat) : Nat :=
  if index >>> kLgSizeClassesPerDoubling = 0 then
    (index + 1) <<< kLgSmallSizeQuantum
  else
    ((1 <<< kLgSizeClassesPerDoubling) + index % (1 <<< kLgSizeClassesPerDoubling) + 1)
      <<< ((index >>> kLgSizeClassesPerDoubling) - 1 + kLgSmallSizeQuantum)

/-- Source `MemoryManager::sizeIndex2Size`: table lookup. -/
def sizeIndex2Size (index : Nat) : Nat := kSizeIndex2Size index

/-- Largest size class; in the source this is the size of the last table
entry. -/
def kMaxSizeClass : Nat := sizeIndex2Size (kNumSizeClasses - 1)

/-- Ceiling of the small-object range: the size of the last small class. -/
def kMaxSmallSize : Nat := sizeIndex2Size (kNumSmallSizes - 1)

/-- Source `MemoryManager::computeSize2Index`: round `size` up to the nearest
size class and return the index of that class.  Direct embedding of the
source: decrement, find the highest set bit, then either the denormal
shift or the exponent/mantissa combination. -/
def computeSize2Index (size : Nat) : Nat :=
  let s := size - 1
  let nBits := fls64 s
  if nBits < kLgSizeClassesPerDoubling + kLgSmallSizeQuantum then
    s >>> kLgSmallSizeQuantum
  else
    let exp := nBits - (kLgSizeClassesPerDoubling + kLgSmallSizeQuantum)
    let rawMantissa := s >>> (nBits - kLgSizeClassesPerDoubling)
    (exp <<< kLgSizeClassesPerDoubling) + rawMantissa

/-- Modelled from the spec: the precomputed table `kSmallSize2Index`
(filled in memory-manager.cpp, outside the excerpted source).  Entry `j`
holds the class index shared by every size in the quantum bucket
`(j <<< kLgSmallSizeQuantum, (j + 1) <<< kLgSmallSizeQuantum]`; it is the
index computed for the largest size of that bucket. -/
def kSmallSize2Index (j : Nat) : Nat :=
  computeSize2Index ((j + 1) <<< kLgSmallSizeQuantum)

/-- Source `MemoryManager::lookupSmallSize2Index`: table lookup indexed by
`(size - 1) >> kLgSmallSizeQuantum`. -/
def lookupSmallSize2Index (size : Nat) : Nat :=
  kSmallSize2Index ((size - 1) >>> kLgSmallSizeQuantum)

/-- Source `MemoryManager::size2Index`: table lookup for sizes up to
`kMaxSmallSizeLookup`, direct computation above. -/
def size2Index (size : Nat) : Nat :=
  if size ≤ kMaxSmallSizeLookup then lookupSmallSize2Index size
  else computeSize2Index size

/-- Source `MemoryManager::sizeClass`: round `size` up to the nearest
`kLgSizeClassesPerDoubling + 1` significant bits, or to the nearest
quantum, whichever is greater.  The signed `ssize_t` subtraction of the
source is embedded as `Int`. -/
def sizeClass (size : Nat) : Nat :=
  let s := size - 1
  let nInsignificantBits : Int := (fls64 s : Int) - (kLgSizeClassesPerDoubling : Int)
  let roundTo : Nat :=
    if nInsignificantBits < (kLgSmallSizeQuantum : Int) then kLgSmallSizeQuantum
    else nInsignificantBits.toNat
  ((s >>> roundTo) + 1) <<< roundTo

/-! ## Bracketing facts about `fls64`. -/

theorem fls64Go_spec : ∀ (fuel n : Nat), 0 < n → n < 2 ^ fuel →
    2 ^ fls64Go fuel n ≤ n ∧ n < 2 ^ (fls64Go fuel n + 1) := by
  intro fuel
  induction fuel with
  | zero => intro n h1 h2; simp at h2; omega
  | succ fuel ih =>
    intro n h1 h2
    by_cases h : n < 2
    · have hn1 : n = 1 := by omega
      simp [fls64Go, h, hn1]
    · have hdiv : n >>> 1 = n / 2 := Nat.shiftRight_one n
      have h1' : 0 < n / 2 := by omega
      have h2' : n / 2 < 2 ^ fuel := by
        have : (2:Nat) ^ (fuel + 1) = 2 ^ fuel * 2 := by rw [pow_succ]
        omega
      obtain ⟨ha, hb⟩ := ih (n >>> 1) (by rw [hdiv]; exact h1') (by rw [hdiv]; exact h2')
      rw [hdiv] at ha hb
      have heq : fls64Go (fuel + 1) n = fls64Go fuel (n >>> 1) + 1 := by
        simp [fls64Go, h]
      rw [heq, hdiv]
      constructor
      · rw [pow_succ]
        omega
      · rw [pow_succ, pow_succ] at *
        omega

theorem fls64_spec (n : Nat) (h1 : 0 < n) (h2 : n < 2 ^ 64) :
    2 ^ fls64 n ≤ n ∧ n < 2 ^ (fls64 n + 1) :=
  fls64Go_spec 64 n h1 h2

theorem fls64_eq (m a : Nat) (h1 : 2 ^ a ≤ m) (h2 : m < 2 ^ (a + 1))
    (h64 : m < 2 ^ 64) : fls64 m = a := by
  have hm : 0 < m := lt_of_lt_of_le (Nat.pow_pos (by norm_num)) h1
  obtain ⟨hb1, hb2⟩ := fls64_spec m hm h64
  by_contra hne
  rcases Nat.lt_or_ge (fls64 m) a with h | h
  · have : (2:Nat) ^ (fls64 m + 1) ≤ 2 ^ a := Nat.pow_le_pow_right (by norm_num) (by omega)
    omega
  · have ha : a < fls64 m := by omega
    have : (2:Nat) ^ (a + 1) ≤ 2 ^ fls64 m := Nat.pow_le_pow_right (by norm_num) (by omega)
    omega

/-! ## Branch equations for the engine functions. -/

theorem computeSize2Index_denormal (s : Nat) (h : fls64 (s - 1) < 6) :
    computeSize2Index s = (s - 1) / 16 := by
  have h' : fls64 (s - 1) < kLgSizeClassesPerDoubling + kLgSmallSizeQuantum := by
    simp only [kLgSizeClassesPerDoubling, kLgSmallSizeQuantum]
    omega
  simp only [computeSize2Index]
  rw [if_pos h', Nat.shiftRight_eq_div_pow]
  simp [kLgSmallSizeQuantum]

theorem computeSize2Index_normal (s : Nat) (h : 6 ≤ fls64 (s - 1)) :
    computeSize2Index s =
      (fls64 (s - 1) - 6) * 4 + (s - 1) / 2 ^ (fls64 (s - 1) - 2) := by
  have h' : ¬ fls64 (s - 1) < kLgSizeClassesPerDoubling + kLgSmallSizeQuantum := by
    simp only [kLgSizeClassesPerDoubling, kLgSmallSizeQuantum]
    omega
  simp only [computeSize2Index]
  rw [if_neg h']
  simp only [Nat.shiftLeft_eq, Nat.shiftRight_eq_div_pow,
    kLgSizeClassesPerDoubling, kLgSmallSizeQuantum]

theorem kSizeIndex2Size_denormal (i : Nat) (h : i < 4) :
    kSizeIndex2Size i = (i + 1) * 16 := by
  have h' : i >>> kLgSizeClassesPerDoubling = 0 := by
    simp only [kLgSizeClassesPerDoubling, Nat.shiftRight_eq_div_pow]
    omega
  simp only [kSizeIndex2Size]
  rw [if_pos h', Nat.shiftLeft_eq]
  simp [kLgSmallSizeQuantum]

theorem kSizeIndex2Size_normal (i : Nat) (h : 4 ≤ i) :
    kSizeIndex2Size i = (4 + i % 4 + 1) * 2 ^ (i / 4 - 1 + 4) := by
  have h' : ¬ i >>> kLgSizeClassesPerDoubling = 0 := by
    simp only [kLgSizeClassesPerDoubling, Nat.shiftRight_eq_div_pow]
    omega
  simp only [kSizeIndex2Size]
  rw [if_neg h']
  simp only [Nat.shiftLeft_eq, Nat.shiftRight_eq_div_pow,
    kLgSizeClassesPerDoubling, kLgSmallSizeQuantum]

theorem sizeClass_denormal (s : Nat) (h : fls64 (s - 1) < 6) :
    sizeClass s = ((s - 1) / 16 + 1) * 16 := by
  have h' : ((fls64 (s - 1) : Int) - (kLgSizeClassesPerDoubling : Nat)) <
      ((kLgSmallSizeQuantum : Nat) : Int) := by
    simp only [kLgSizeClassesPerDoubling, kLgSmallSizeQuantum]
    omega
  simp only [sizeClass]
  rw [if_pos h', Nat.shiftRight_eq_div_pow, Nat.shiftLeft_eq]
  simp [kLgSmallSizeQuantum]

theorem sizeClass_normal (s : Nat) (h : 6 ≤ fls64 (s - 1)) :
    sizeClass s =
      ((s - 1) / 2 ^ (fls64 (s - 1) - 2) + 1) * 2 ^ (fls64 (s - 1) - 2) := by
  have h' : ¬ ((fls64 (s - 1) : Int) - (kLgSizeClassesPerDoubling : Nat)) <
      ((kLgSmallSizeQuantum : Nat) : Int) := by
    simp only [kLgSizeClassesPerDoubling, kLgSmallSizeQuantum]
    omega
  have htn : (((fls64 (s - 1) : Int) - (kLgSizeClassesPerDoubling : Nat))).toNat
      = fls64 (s - 1) - 2 := by
    simp only [kLgSizeClassesPerDoubling]
    omega
  simp only [sizeClass]
  rw [if_neg h', htn, Nat.shiftRight_eq_div_pow, Nat.shiftLeft_eq]

/-! ## The round-trip master lemma.

For every size in `(1, kMaxSizeClass]` the computed index points at the
smallest class size that is at least the requested size, the index is in
range, and the direct rounding formula of `sizeClass` lands on the same
class size. -/

theorem computeSize2Index_master (s : Nat) (h1 : 2 ≤ s) (h2 : s ≤ 2 ^ 32) :
    s ≤ kSizeIndex2Size (computeSize2Index s)
    ∧ (computeSize2Index s = 0 ∨ kSizeIndex2Size (computeSize2Index s - 1) < s)
    ∧ computeSize2Index s < kNumSizeClasses
    ∧ sizeClass s = kSizeIndex2Size (computeSize2Index s) := by
  have e32 : (2:Nat) ^ 32 = 4294967296 := by norm_num
  have hm64 : s - 1 < 2 ^ 64 := by
    have e64 : (4294967296 : Nat) ≤ 2 ^ 64 := by norm_num
    omega
  obtain ⟨hn1, hn2⟩ := fls64_spec (s - 1) (by omega) hm64
  have hn31 : fls64 (s - 1) ≤ 31 := by
    by_contra hc
    have h32n : (2:Nat) ^ 32 ≤ 2 ^ fls64 (s - 1) :=
      Nat.pow_le_pow_right (by norm_num) (by omega)
    omega
  by_cases h6 : fls64 (s - 1) < 6
  · -- denormal range: round up to a multiple of the quantum
    have hidx : computeSize2Index s = (s - 1) / 16 := computeSize2Index_denormal s h6
    have hcls : sizeClass s = ((s - 1) / 16 + 1) * 16 := sizeClass_denormal s h6
    have hm64' : s - 1 < 64 := by
      have hle : (2:Nat) ^ (fls64 (s - 1) + 1) ≤ 2 ^ 6 :=
        Nat.pow_le_pow_right (by norm_num) (by omega)
      have e6 : (2:Nat) ^ 6 = 64 := by norm_num
      omega
    have hi4 : (s - 1) / 16 < 4 := by omega
    have hval : kSizeIndex2Size ((s - 1) / 16) = ((s - 1) / 16 + 1) * 16 :=
      kSizeIndex2Size_denormal _ hi4
    refine ⟨?_, ?_, ?_, ?_⟩
    · rw [hidx, hval]
      omega
    · by_cases hz : (s - 1) / 16 = 0
      · exact Or.inl (by rw [hidx, hz])
      · refine Or.inr ?_
        rw [hidx]
        have hval' : kSizeIndex2Size ((s - 1) / 16 - 1) = ((s - 1) / 16 - 1 + 1) * 16 :=
          kSizeIndex2Size_denormal _ (by omega)
        rw [hval']
        omega
    · rw [hidx]
      simp only [kNumSizeClasses]
      omega
    · rw [hidx, hval, hcls]
  · -- normal range: round up to the top three significant bits
    push_neg at h6
    have hidx := computeSize2Index_normal s h6
    have hcls := sizeClass_normal s h6
    obtain ⟨n, hn⟩ : ∃ n, fls64 (s - 1) = n := ⟨_, rfl⟩
    rw [hn] at hn1 hn2 hn31 h6 hidx hcls
    obtain ⟨P, hP⟩ : ∃ P, (2:Nat) ^ (n - 2) = P := ⟨_, rfl⟩
    rw [hP] at hidx hcls
    have hP0 : 0 < P := by rw [← hP]; exact Nat.pow_pos (by norm_num)
    have h2n : (2:Nat) ^ n = 4 * P := by
      calc (2:Nat) ^ n = 2 ^ (2 + (n - 2)) := by congr 1; omega
        _ = 2 ^ 2 * 2 ^ (n - 2) := by rw [pow_add]
        _ = 4 * P := by rw [hP]; norm_num
    have h2n1 : (2:Nat) ^ (n + 1) = 8 * P := by
      calc (2:Nat) ^ (n + 1) = 2 ^ (3 + (n - 2)) := by congr 1; omega
        _ = 2 ^ 3 * 2 ^ (n - 2) := by rw [pow_add]
        _ = 8 * P := by rw [hP]; norm_num
    obtain ⟨raw, hraw⟩ : ∃ r, (s - 1) / P = r := ⟨_, rfl⟩
    rw [hraw] at hidx hcls
    have hr1 : 4 ≤ raw := by
      rw [← hraw]
      exact (Nat.le_div_iff_mul_le hP0).2 (by omega)
    have hr2 : raw < 8 := by
      rw [← hraw]
      exact (Nat.div_lt_iff_lt_mul hP0).2 (by omega)
    have hdm : P * raw + (s - 1) % P = s - 1 := by
      have := Nat.div_add_mod (s - 1) P
      rw [hraw] at this
      exact this
    have hmod : (s - 1) % P < P := Nat.mod_lt _ hP0
    obtain ⟨A, hA⟩ : ∃ A, P * raw = A := ⟨_, rfl⟩
    rw [hA] at hdm
    have hkval : kSizeIndex2Size ((n - 6) * 4 + raw) = (raw + 1) * P := by
      rw [kSizeIndex2Size_normal _ (by omega)]
      have hd : ((n - 6) * 4 + raw) / 4 = n - 5 := by omega
      have hmd : ((n - 6) * 4 + raw) % 4 = raw - 4 := by omega
      have hexp : n - 5 - 1 + 4 = n - 2 := by omega
      have hma : 4 + (raw - 4) + 1 = raw + 1 := by omega
      rw [hd, hmd, hexp, hP, hma]
    have hsum : (raw + 1) * P = A + P := by rw [← hA]; ring
    refine ⟨?_, ?_, ?_, ?_⟩
    · rw [hidx, hkval, hsum]
      omega
    · refine Or.inr ?_
      rw [hidx]
      by_cases hr5 : 5 ≤ raw
      · have heq : (n - 6) * 4 + raw - 1 = (n - 6) * 4 + (raw - 1) := by omega
        rw [heq, kSizeIndex2Size_normal _ (by omega)]
        have hd : ((n - 6) * 4 + (raw - 1)) / 4 = n - 5 := by omega
        have hmd : ((n - 6) * 4 + (raw - 1)) % 4 = raw - 5 := by omega
        have hexp : n - 5 - 1 + 4 = n - 2 := by omega
        have hma : 4 + (raw - 5) + 1 = raw := by omega
        rw [hd, hmd, hexp, hP, hma]
        have : raw * P = A := by rw [← hA]; ring
        rw [this]
        omega
      · have hr4 : raw = 4 := by omega
        by_cases hn7 : 7 ≤ n
        · have heq : (n - 6) * 4 + raw - 1 = (n - 7) * 4 + 7 := by omega
          rw [heq, kSizeIndex2Size_normal _ (by omega)]
          have hd : ((n - 7) * 4 + 7) / 4 = n - 6 := by omega
          have hmd : ((n - 7) * 4 + 7) % 4 = 3 := by omega
          have hexp : n - 6 - 1 + 4 = n - 3 := by omega
          rw [hd, hmd, hexp]
          have h8 : (4 + 3 + 1) * (2:Nat) ^ (n - 3) = 2 ^ n := by
            calc (4 + 3 + 1) * (2:Nat) ^ (n - 3) = 2 ^ 3 * 2 ^ (n - 3) := by norm_num
              _ = 2 ^ (3 + (n - 3)) := by rw [← pow_add]
              _ = 2 ^ n := by congr 1; omega
          rw [h8]
          omega
        · have hn6 : n = 6 := by omega
          have heq : (n - 6) * 4 + raw - 1 = 3 := by omega
          rw [heq, kSizeIndex2Size_denormal _ (by omega)]
          have h64 : (2:Nat) ^ n = 64 := by rw [hn6]; norm_num
          omega
    · rw [hidx]
      simp only [kNumSizeClasses]
      omega
    · rw [hidx, hcls, hkval]

/-! ## Monotonicity of the class-size table. -/

theorem kSizeIndex2Size_succ_lt :
    ∀ j, j < kNumSizeClasses - 1 → kSizeIndex2Size j < kSizeIndex2Size (j + 1) := by
  decide

theorem kSizeIndex2Size_strictMono (j k : Nat) (hk : k < kNumSizeClasses)
    (hjk : j < k) : kSizeIndex2Size j < kSizeIndex2Size k := by
  induction k with
  | zero => omega
  | succ k ih =>
    rcases Nat.lt_or_ge j k with h | h
    · exact lt_trans (ih (by omega) h) (kSizeIndex2Size_succ_lt k (by omega))
    · have hjeq : j = k := by omega
      subst hjeq
      exact kSizeIndex2Size_succ_lt j (by omega)

theorem kSizeIndex2Size_mono (j k : Nat) (hk : k < kNumSizeClasses)
    (hjk : j ≤ k) : kSizeIndex2Size j ≤ kSizeIndex2Size k := by
  rcases Nat.eq_or_lt_of_le hjk with rfl | hlt
  · exact le_refl _
  · exact (kSizeIndex2Size_strictMono j k hk hlt).le

/-! ## The lookup table agrees with the direct computation. -/

theorem lookupSmallSize2Index_eq_computeSize2Index (s : Nat)
    (h1 : 2 ≤ s) (h2 : s ≤ kMaxSmallSizeLookup) :
    lookupSmallSize2Index s = computeSize2Index s := by
  have h2' : s ≤ 4096 := by simpa [kMaxSmallSizeLookup] using h2
  have hsr : (s - 1) >>> kLgSmallSizeQuantum = (s - 1) / 16 := by
    rw [Nat.shiftRight_eq_div_pow]
    norm_num [kLgSmallSizeQuantum]
  have hsl : ((s - 1) / 16 + 1) <<< kLgSmallSizeQuantum = ((s - 1) / 16 + 1) * 16 := by
    rw [Nat.shiftLeft_eq]
    norm_num [kLgSmallSizeQuantum]
  show kSmallSize2Index ((s - 1) >>> kLgSmallSizeQuantum) = computeSize2Index s
  rw [hsr]
  show computeSize2Index (((s - 1) / 16 + 1) <<< kLgSmallSizeQuantum) = computeSize2Index s
  rw [hsl]
  have htm : ((s - 1) / 16 + 1) * 16 - 1 = (s - 1) / 16 * 16 + 15 := by omega
  by_cases hlt16 : s - 1 < 16
  · -- both sizes classify onto denormal index 0
    have hz : (s - 1) / 16 = 0 := by omega
    have hf15 : fls64 (((s - 1) / 16 + 1) * 16 - 1) < 6 := by
      rw [htm, hz]
      norm_num
      decide
    have hfs : fls64 (s - 1) < 6 := by
      by_contra hc
      have : (2:Nat) ^ 6 ≤ 2 ^ fls64 (s - 1) := Nat.pow_le_pow_right (by norm_num) (by omega)
      obtain ⟨hb1, _⟩ := fls64_spec (s - 1) (by omega) (by norm_num; omega)
      have e6 : (2:Nat) ^ 6 = 64 := by norm_num
      omega
    rw [computeSize2Index_denormal _ hf15, computeSize2Index_denormal _ hfs, htm, hz]
  · -- the bucket top has the same leading bit and the same shifted prefix
    obtain ⟨hn1, hn2⟩ := fls64_spec (s - 1) (by omega) (by
      have : (4096:Nat) < 2 ^ 64 := by norm_num
      omega)
    obtain ⟨n, hn⟩ : ∃ n, fls64 (s - 1) = n := ⟨_, rfl⟩
    rw [hn] at hn1 hn2
    have hn4 : 4 ≤ n := by
      by_contra hc
      have : (2:Nat) ^ (n + 1) ≤ 2 ^ 4 := Nat.pow_le_pow_right (by norm_num) (by omega)
      have e4 : (2:Nat) ^ 4 = 16 := by norm_num
      omega
    have hK : (2:Nat) ^ (n + 1) = 2 ^ (n - 3) * 16 := by
      calc (2:Nat) ^ (n + 1) = 2 ^ ((n - 3) + 4) := by congr 1; omega
        _ = 2 ^ (n - 3) * 2 ^ 4 := by rw [pow_add]
        _ = 2 ^ (n - 3) * 16 := by norm_num
    have hjK : (s - 1) / 16 < 2 ^ (n - 3) :=
      (Nat.div_lt_iff_lt_mul (by norm_num)).2 (by omega)
    have hft : fls64 ((s - 1) / 16 * 16 + 15) = n := by
      apply fls64_eq
      · omega
      · omega
      · have : (4111:Nat) < 2 ^ 64 := by norm_num
        omega
    by_cases h6 : n < 6
    · rw [computeSize2Index_denormal _ (by rw [htm, hft]; omega),
        computeSize2Index_denormal _ (by rw [hn]; omega), htm]
      omega
    · rw [computeSize2Index_normal _ (by rw [htm, hft]; omega),
        computeSize2Index_normal _ (by rw [hn]; omega), htm, hft, hn]
      have h16 : (2:Nat) ^ (n - 2) = 16 * 2 ^ (n - 6) := by
        calc (2:Nat) ^ (n - 2) = 2 ^ (4 + (n - 6)) := by congr 1; omega
          _ = 2 ^ 4 * 2 ^ (n - 6) := by rw [pow_add]
          _ = 16 * 2 ^ (n - 6) := by norm_num
      rw [h16, ← Nat.div_div_eq_div_mul, ← Nat.div_div_eq_div_mul]
      congr 2
      omega

theorem size2Index_eq_computeSize2Index (s : Nat) (h1 : 2 ≤ s) :
    size2Index s = computeSize2Index s := by
  by_cases hle : s ≤ kMaxSmallSizeLookup
  · show (if s ≤ kMaxSmallSizeLookup then lookupSmallSize2Index s
      else computeSize2Index s) = computeSize2Index s
    rw [if_pos hle]
    exact lookupSmallSize2Index_eq_computeSize2Index s h1 hle
  · show (if s ≤ kMaxSmallSizeLookup then lookupSmallSize2Index s
      else computeSize2Index s) = computeSize2Index s
    rw [if_neg hle]

theorem kMaxSizeClass_eq : kMaxSizeClass = 2 ^ 32 := by decide

/-- C1: for every size `s` with `1 < s ≤ kMaxSizeClass`,
`sizeIndex2Size (size2Index s)` is at least `s`, and it is the smallest
class size with that property: any in-range class index whose byte size
is at least `s` has byte size no smaller than the returned one, so the
composition is the ceiling of `s` onto the set of class sizes. -/
theorem size2Index_roundtrip_is_ceiling (s : Nat)
    (h1 : 1 < s) (h2 : s ≤ kMaxSizeClass) :
    s ≤ sizeIndex2Size (size2Index s) ∧
    ∀ j, j < kNumSizeClasses → s ≤ sizeIndex2Size j →
      sizeIndex2Size (size2Index s) ≤ sizeIndex2Size j := by
  have hmax : kMaxSizeClass = 2 ^ 32 := kMaxSizeClass_eq
  have hsi : size2Index s = computeSize2Index s :=
    size2Index_eq_computeSize2Index s (by omega)
  obtain ⟨hge, hpred, hltN, _⟩ := computeSize2Index_master s (by omega) (by omega)
  constructor
  · show s ≤ kSizeIndex2Size (size2Index s)
    rw [hsi]
    exact hge
  · intro j hj hjge
    have hjge' : s ≤ kSizeIndex2Size j := hjge
    show kSizeIndex2Size (size2Index s) ≤ kSizeIndex2Size j
    rw [hsi]
    by_contra hc
    push_neg at hc
    have hjk : j < computeSize2Index s := by
      by_contra hjk
      push_neg at hjk
      have := kSizeIndex2Size_mono (computeSize2Index s) j hj hjk
      omega
    rcases hpred with h0 | hp
    · omega
    · have hle : kSizeIndex2Size j ≤ kSizeIndex2Size (computeSize2Index s - 1) :=
        kSizeIndex2Size_mono j (computeSize2Index s - 1) (by omega) (by omega)
      omega

/-- Witness for C1 at size 100: the engine rounds 100 up to the class of
112 bytes, and class index 10 (224 bytes) is a larger class that also
covers 100. -/
theorem size2Index_roundtrip_is_ceiling_witness :
    1 < 100 ∧ 100 ≤ kMaxSizeClass ∧ 100 ≤ sizeIndex2Size (size2Index 100) ∧
      sizeIndex2Size (size2Index 100) ≤ sizeIndex2Size 10 :=
  ⟨by norm_num, by decide,
   (size2Index_roundtrip_is_ceiling 100 (by norm_num) (by decide)).1,
   (size2Index_roundtrip_is_ceiling 100 (by norm_num) (by decide)).2 10
     (by decide) (by decide)⟩

/-- C2: for every size `s` with `1 < s ≤ kMaxSizeClass`, the direct
rounding formula `sizeClass s` agrees with going through the class index,
`sizeIndex2Size (size2Index s)`, including the table-lookup branch taken
for `s ≤ kMaxSmallSizeLookup`. -/
theorem sizeClass_eq_roundtrip (s : Nat) (h1 : 1 < s) (h2 : s ≤ kMaxSizeClass) :
    sizeClass s = sizeIndex2Size (size2Index s) := by
  have hmax : kMaxSizeClass = 2 ^ 32 := kMaxSizeClass_eq
  have hsi : size2Index s = computeSize2Index s :=
    size2Index_eq_computeSize2Index s (by omega)
  obtain ⟨_, _, _, hcls⟩ := computeSize2Index_master s (by omega) (by omega)
  show sizeClass s = kSizeIndex2Size (size2Index s)
  rw [hsi]
  exact hcls

/-- Witness for C2 at size 3000: a size served by the lookup-table branch
of `size2Index`; both routes give the 3072-byte class. -/
theorem sizeClass_eq_roundtrip_witness :
    1 < 3000 ∧ 3000 ≤ kMaxSizeClass ∧
      sizeClass 3000 = sizeIndex2Size (size2Index 3000) :=
  ⟨by norm_num, by decide,
   sizeClass_eq_roundtrip 3000 (by norm_num) (by decide)⟩

/-! ## Free lists.

`MemoryManager::FreeList` is an intrusive singly linked list: a head
pointer plus, for each node currently in a list, a link stored in the
node memory itself (`FreeNode::UninitFrom` writes only the link).
Addresses are embedded as `Nat`, the null pointer as `none`, and the
per-node links as a map from address to stored link. -/

structure FreeList where
  head : Option Nat
  next : Nat → Option Nat

/-- Source `MemoryManager::FreeList::likelyPop`: return the head (null when the
list is empty) and advance the head to the link stored in the popped
node; the branch-prediction hint and the prefetch have no semantic
content. -/
def FreeList.likelyPop (fl : FreeList) : Option Nat × FreeList :=
  match fl.head with
  | none => (none, fl)
  | some ret => (some ret, { fl with head := fl.next ret })

/-- Source `MemoryManager::FreeList::unlikelyPop`: same body as `likelyPop` with
the opposite branch hint. -/
def FreeList.unlikelyPop (fl : FreeList) : Option Nat × FreeList :=
  match fl.head with
  | none => (none, fl)
  | some ret => (some ret, { fl with head := fl.next ret })

/-- Source `MemoryManager::FreeList::push`: `FreeNode::UninitFrom(val, head)`
stores the old head as the link of `val` and makes `val` the new head. -/
def FreeList.push (fl : FreeList) (val : Nat) : FreeList :=
  { head := some val
    next := fun p => if p = val then fl.head else fl.next p }

/-! ## Usage stats and the allocator state.

`MemoryUsageStats` is declared outside the excerpted source.  Modelled
from the spec: a value record with the current request-visible usage
counter `mmUsage`, a capacity figure, the lifetime peak, and the
peak-interval usage/capacity pair for the bounded measurement window.
Counters are signed 64-bit values, embedded as `Int`.  Without the
ground-truth counters of the external allocator the stats degrade to
usage-only tracking, so the snapshot usage is `mmUsage` and the
reconciliation step of a snapshot is the identity. -/

structure MemoryUsageStats where
  mmUsage : Int
  capacityBytes : Int
  peakUsage : Int
  peakIntervalUsage : Int
  peakIntervalCap : Int

/-- Modelled from the spec: `MemoryUsageStats::usage()` with no external
counter source reports the running usage counter. -/
def MemoryUsageStats.usage (st : MemoryUsageStats) : Int := st.mmUsage

/-- Modelled from the spec: `MemoryUsageStats::capacity()`. -/
def MemoryUsageStats.capacity (st : MemoryUsageStats) : Int := st.capacityBytes

/-- State record: the `MemoryManager` state touched by the verified operations: the
stats record, the per-class free lists, the OOM-check flag and limit,
the interval flag, the bypass-slab-allocation diagnostic flag with its
per-index allocation counters, the exit flag, and the modelled
collaborators: the backing-heap bump pointer used by the slow
allocation path, the alloc-time size recorded for each block handed out
by the large-object path (the real code reads it back from the block
header when the block is freed), the list of blocks released through
the large-object free path, and a count of invocations of the
exceeded-handling path. -/
structure MemoryManager where
  m_stats : MemoryUsageStats
  m_freelists : Nat → FreeList
  m_couldOOM : Bool
  m_usageLimit : Int
  m_statsIntervalActive : Bool
  m_bypassSlabAlloc : Bool
  currentSmallAllocs : Nat → Int
  m_exiting : Bool
  heapFront : Nat
  bigSizes : Nat → Nat
  bigFreed : List Nat
  exceededCalls : Nat

/-- Modelled from the spec: `refreshStatsImpl` on a snapshot reconciles
against ground-truth allocator counters when available and is a no-op
otherwise; with no such counters it is the identity. -/
def refreshStatsImpl (stats : MemoryUsageStats) : MemoryUsageStats := stats

/-- Source `MemoryManager::getStatsCopy`: copy the stats and reconcile the copy,
leaving the stored stats and the interval state untouched. -/
def MemoryManager.getStatsCopy (mm : MemoryManager) : MemoryUsageStats :=
  refreshStatsImpl mm.m_stats

/-- Source `MemoryManager::currentUsage`. -/
def MemoryManager.currentUsage (mm : MemoryManager) : Int := mm.m_stats.mmUsage

/-- Modelled from the spec: `refreshStatsHelperExceeded` is the
exceeded-handling path, an external collaborator hook that signals the
breach to the execution engine; it does not touch the stats record or
the interval state.  The model counts its invocations. -/
def MemoryManager.refreshStatsHelperExceeded (mm : MemoryManager) : MemoryManager :=
  { mm with exceededCalls := mm.exceededCalls + 1 }

/-- Source `MemoryManager::preAllocOOM`: with checks enabled, snapshot the stats
and report (and signal) a breach when `usage + size` would exceed the
limit; with checks disabled, always report no breach. -/
def MemoryManager.preAllocOOM (mm : MemoryManager) (size : Int) :
    MemoryManager × Bool :=
  if mm.m_couldOOM then
    if mm.getStatsCopy.usage + size > mm.m_usageLimit then
      (mm.refreshStatsHelperExceeded, true)
    else
      (mm, false)
  else
    (mm, false)

/-- Source `MemoryManager::startStatsInterval`: remember whether an interval was
already active, record the snapshot usage (clamped to non-negative) and
the current capacity as the interval peaks, and mark the interval
active. -/
def MemoryManager.startStatsInterval (mm : MemoryManager) :
    MemoryManager × Bool :=
  let ret := !mm.m_statsIntervalActive
  let stats := mm.getStatsCopy
  ({ mm with
      m_stats := { mm.m_stats with
        peakIntervalUsage := max 0 stats.usage
        peakIntervalCap := mm.m_stats.capacity }
      m_statsIntervalActive := true },
   ret)

/-- Source `MemoryManager::stopStatsInterval`: report whether an interval was
active, deactivate it, and zero both interval peaks. -/
def MemoryManager.stopStatsInterval (mm : MemoryManager) :
    MemoryManager × Bool :=
  ({ mm with
      m_statsIntervalActive := false
      m_stats := { mm.m_stats with
        peakIntervalUsage := 0
        peakIntervalCap := 0 } },
   mm.m_statsIntervalActive)

/-- Source `MemoryManager::SuppressOOM` construction: save the current
`m_couldOOM` and disable checks. -/
def MemoryManager.suppressOOMConstruct (mm : MemoryManager) :
    MemoryManager × Bool :=
  ({ mm with m_couldOOM := false }, mm.m_couldOOM)

/-- Source `MemoryManager::SuppressOOM` destruction: restore the saved
`m_couldOOM` state. -/
def MemoryManager.suppressOOMDestruct (mm : MemoryManager)
    (savedCouldOOM : Bool) : MemoryManager :=
  { mm with m_couldOOM := savedCouldOOM }

/-- Modelled from the spec: `mallocBigSize` (defined outside the
excerpted source) is the large-object allocation path: it takes a fresh
block from the backing heap, charges usage by the block size
(increment on alloc by the requested size, spec section 4.5), and
records that alloc-time size so the matching free can release exactly
it (symmetric accounting). -/
def MemoryManager.mallocBigSize (mm : MemoryManager) (bytes : Nat) :
    MemoryManager × Nat :=
  ({ mm with
      heapFront := mm.heapFront + bytes
      bigSizes := fun p => if p = mm.heapFront then bytes else mm.bigSizes p
      m_stats := { mm.m_stats with mmUsage := mm.m_stats.mmUsage + bytes } },
   mm.heapFront)

/-- Modelled from the spec: `mallocSmallSizeSlow` (defined outside the
excerpted source).  Normally it carves a fresh block of the class size
out of the backing heap, growing it if necessary, without touching the
usage counter, which the fast path has already charged.  In the
bypass-slab-allocation diagnostic mode every block instead comes from
the large-object path, so the class-size charge already made by the
fast path is withdrawn and replaced by the large-object charge for the
same byte count — the accounting handover that keeps the symmetric
alloc/free invariant of spec section 4.5. -/
def MemoryManager.mallocSmallSizeSlow (mm : MemoryManager)
    (bytes index : Nat) : MemoryManager × Nat :=
  if mm.m_bypassSlabAlloc then
    let mm1 : MemoryManager :=
      { mm with m_stats := { mm.m_stats with mmUsage := mm.m_stats.mmUsage - bytes } }
    mm1.mallocBigSize bytes
  else
    ({ mm with heapFront := mm.heapFront + bytes }, mm.heapFront)

/-- Source `MemoryManager::mallocSmallIndex`: charge the class size to
`mmUsage`, then pop the class free list, falling back to the slow path
when the list is empty.  The debug-build eager-GC hook is a no-op here. -/
def MemoryManager.mallocSmallIndex (mm : MemoryManager) (index : Nat) :
    MemoryManager × Nat :=
  let bytes := sizeIndex2Size index
  let mm1 : MemoryManager :=
    { mm with m_stats := { mm.m_stats with mmUsage := mm.m_stats.mmUsage + bytes } }
  let pr := (mm1.m_freelists index).likelyPop
  match pr.1 with
  | some ptr =>
      ({ mm1 with
          m_freelists := fun i => if i = index then pr.2 else mm1.m_freelists i },
       ptr)
  | none => mm1.mallocSmallSizeSlow bytes index

/-- Source `MemoryManager::mallocSmallSize`. -/
def MemoryManager.mallocSmallSize (mm : MemoryManager) (bytes : Nat) :
    MemoryManager × Nat :=
  mm.mallocSmallIndex (size2Index bytes)

/-- Modelled from the spec: `freeBigSize` (defined outside the excerpted
source) is the large-object free path: it releases the block and
decrements usage by the same size used at alloc time (the symmetric
accounting required by spec section 4.5), reading the recorded
alloc-time size of the block; the freed block is recorded. -/
def MemoryManager.freeBigSize (mm : MemoryManager) (ptr : Nat) : MemoryManager :=
  { mm with
      bigFreed := ptr :: mm.bigFreed
      m_stats := { mm.m_stats with
        mmUsage := mm.m_stats.mmUsage - mm.bigSizes ptr } }

/-- Source `MemoryManager::freeSmallIndex`: in the bypass-slab-allocation
diagnostic mode, decrement the per-index allocation count and route the
block to the large-object free path; otherwise push the block onto the
class free list and release the class size from `mmUsage`. -/
def MemoryManager.freeSmallIndex (mm : MemoryManager) (ptr index : Nat) :
    MemoryManager :=
  if mm.m_bypassSlabAlloc then
    let mm1 : MemoryManager :=
      { mm with currentSmallAllocs := fun i =>
          if i = index then mm.currentSmallAllocs i - 1 else mm.currentSmallAllocs i }
    mm1.freeBigSize ptr
  else
    let bytes := sizeIndex2Size index
    { mm with
        m_freelists := fun i =>
          if i = index then (mm.m_freelists index).push ptr else mm.m_freelists i
        m_stats := { mm.m_stats with mmUsage := mm.m_stats.mmUsage - bytes } }

/-- Source `MemoryManager::freeSmallSize`. -/
def MemoryManager.freeSmallSize (mm : MemoryManager) (ptr bytes : Nat) :
    MemoryManager :=
  mm.freeSmallIndex ptr (size2Index bytes)

/-! ## Global lifecycle queries.

`tl_heap` is the context-local allocator handle; its absence is the
`none` state.  `tl_sweeping` is the companion context-local sweep flag. -/

structure HeapContext where
  tl_heap : Option MemoryManager
  tl_sweeping : Bool

/-- Source `MemoryManager::sweeping`: false unless an instance is present and
the sweep flag is set. -/
def HeapContext.sweeping (c : HeapContext) : Bool :=
  c.tl_heap.isSome && c.tl_sweeping

/-- Source `MemoryManager::exiting`: false unless an instance is present and its
exit flag is set. -/
def HeapContext.exiting (c : HeapContext) : Bool :=
  match c.tl_heap with
  | none => false
  | some mm => mm.m_exiting

/-- Source `MemoryManager::setExiting`: set the exit flag of the present
instance, and do nothing when no instance is present. -/
def HeapContext.setExiting (c : HeapContext) : HeapContext :=
  match c.tl_heap with
  | none => c
  | some mm => { c with tl_heap := some { mm with m_exiting := true } }

/-! ## Helper lemmas about the allocation paths. -/

theorem sizeIndex2Size_pos (index : Nat) : 0 < sizeIndex2Size index := by
  show 0 < kSizeIndex2Size index
  unfold kSizeIndex2Size
  split
  · rw [Nat.shiftLeft_eq]
    positivity
  · rw [Nat.shiftLeft_eq]
    positivity

theorem mallocSmallIndex_effects (mm : MemoryManager) (index : Nat) :
    (mm.mallocSmallIndex index).1.m_stats.mmUsage
        = mm.m_stats.mmUsage + sizeIndex2Size index ∧
    (mm.mallocSmallIndex index).1.m_bypassSlabAlloc = mm.m_bypassSlabAlloc := by
  unfold MemoryManager.mallocSmallIndex
  cases hh : (mm.m_freelists index).head with
  | none =>
    by_cases hb : mm.m_bypassSlabAlloc
    · simp [FreeList.likelyPop, hh, MemoryManager.mallocSmallSizeSlow,
        MemoryManager.mallocBigSize, hb]
    · simp [FreeList.likelyPop, hh, MemoryManager.mallocSmallSizeSlow,
        MemoryManager.mallocBigSize, hb]
  | some p => simp [FreeList.likelyPop, hh]

theorem freeSmallIndex_mmUsage (mm : MemoryManager) (ptr index : Nat)
    (hb : mm.m_bypassSlabAlloc = false) :
    (mm.freeSmallIndex ptr index).m_stats.mmUsage
      = mm.m_stats.mmUsage - sizeIndex2Size index := by
  simp [MemoryManager.freeSmallIndex, hb]

/-- A concrete allocator state used by the witnesses below: usage 900,
limit 1000, checks enabled, empty free lists, normal (non-bypass) mode. -/
def mmDemo : MemoryManager where
  m_stats :=
    { mmUsage := 900, capacityBytes := 2048, peakUsage := 1000
      peakIntervalUsage := 0, peakIntervalCap := 0 }
  m_freelists := fun _ => { head := none, next := fun _ => none }
  m_couldOOM := true
  m_usageLimit := 1000
  m_statsIntervalActive := false
  m_bypassSlabAlloc := false
  currentSmallAllocs := fun _ => 0
  m_exiting := false
  heapFront := 4096
  bigSizes := fun _ => 0
  bigFreed := []
  exceededCalls := 0

/-- The same state in the bypass-slab-allocation diagnostic mode. -/
def mmDemoBypass : MemoryManager :=
  { mmDemo with m_bypassSlabAlloc := true }

/-- A bypass-mode state in which the outstanding block at address 4096
was handed out by the large-object path with alloc-time size 64. -/
def mmDemoBig : MemoryManager :=
  { mmDemoBypass with bigSizes := fun _ => 64 }

/-! ## Claims about the allocator state machine. -/

/-- C3: in normal (non-bypass) mode, a small allocation followed by an
immediate free of the returned block at the same class — through the
index entry points or the size entry points — leaves the usage counter
`m_stats.mmUsage` numerically equal to its value before the
allocation. -/
theorem mallocSmall_freeSmall_restores_mmUsage (mm : MemoryManager)
    (index bytes : Nat) (hb : mm.m_bypassSlabAlloc = false) :
    ((mm.mallocSmallIndex index).1.freeSmallIndex
        (mm.mallocSmallIndex index).2 index).m_stats.mmUsage
      = mm.m_stats.mmUsage ∧
    ((mm.mallocSmallSize bytes).1.freeSmallSize
        (mm.mallocSmallSize bytes).2 bytes).m_stats.mmUsage
      = mm.m_stats.mmUsage := by
  have key : ∀ i : Nat,
      ((mm.mallocSmallIndex i).1.freeSmallIndex
          (mm.mallocSmallIndex i).2 i).m_stats.mmUsage
        = mm.m_stats.mmUsage := by
    intro i
    obtain ⟨h1, h2⟩ := mallocSmallIndex_effects mm i
    rw [freeSmallIndex_mmUsage _ _ _ (by rw [h2]; exact hb), h1]
    ring
  exact ⟨key index, key (size2Index bytes)⟩

/-- Witness for C3: in the demo state, allocating at class index 3
(64 bytes) and freeing the returned block restores `mmUsage`, and the
same holds for a 24-byte size-keyed pair. -/
theorem mallocSmall_freeSmall_restores_mmUsage_witness :
    mmDemo.m_bypassSlabAlloc = false ∧
    ((mmDemo.mallocSmallIndex 3).1.freeSmallIndex
        (mmDemo.mallocSmallIndex 3).2 3).m_stats.mmUsage
      = mmDemo.m_stats.mmUsage ∧
    ((mmDemo.mallocSmallSize 24).1.freeSmallSize
        (mmDemo.mallocSmallSize 24).2 24).m_stats.mmUsage
      = mmDemo.m_stats.mmUsage :=
  ⟨rfl, (mallocSmall_freeSmall_restores_mmUsage mmDemo 3 24 rfl).1,
   (mallocSmall_freeSmall_restores_mmUsage mmDemo 3 24 rfl).2⟩

/-- C4: with checks enabled, `preAllocOOM size` returns true exactly when
`currentUsage + size` exceeds the limit, and then invokes the
exceeded-handling path; with checks disabled it returns false regardless
of usage; and deciding never mutates the stored stats or the interval
flag. -/
theorem preAllocOOM_spec (mm : MemoryManager) (size : Int) :
    ((mm.preAllocOOM size).2 = true ↔
      mm.m_couldOOM = true ∧ mm.currentUsage + size > mm.m_usageLimit) ∧
    (mm.m_couldOOM = false → (mm.preAllocOOM size).2 = false) ∧
    ((mm.preAllocOOM size).2 = true →
      (mm.preAllocOOM size).1.exceededCalls = mm.exceededCalls + 1) ∧
    (mm.preAllocOOM size).1.m_stats = mm.m_stats ∧
    (mm.preAllocOOM size).1.m_statsIntervalActive = mm.m_statsIntervalActive := by
  have huse : mm.getStatsCopy.usage = mm.currentUsage := rfl
  by_cases hc : mm.m_couldOOM
  · by_cases hgt : mm.getStatsCopy.usage + size > mm.m_usageLimit
    · have he : mm.preAllocOOM size = (mm.refreshStatsHelperExceeded, true) := by
        unfold MemoryManager.preAllocOOM
        rw [if_pos hc, if_pos hgt]
      rw [he]
      refine ⟨⟨fun _ => ⟨hc, by rw [← huse]; exact hgt⟩, fun _ => rfl⟩,
        ?_, fun _ => rfl, rfl, rfl⟩
      intro hf
      rw [hf] at hc
      exact (Bool.false_ne_true hc).elim
    · have he : mm.preAllocOOM size = (mm, false) := by
        unfold MemoryManager.preAllocOOM
        rw [if_pos hc, if_neg hgt]
      rw [he]
      refine ⟨⟨fun h => (Bool.false_ne_true h).elim, ?_⟩,
        fun _ => rfl, fun h => (Bool.false_ne_true h).elim, rfl, rfl⟩
      rintro ⟨_, hgt'⟩
      rw [huse] at hgt
      exact (hgt hgt').elim
  · have he : mm.preAllocOOM size = (mm, false) := by
      unfold MemoryManager.preAllocOOM
      rw [if_neg hc]
    rw [he]
    refine ⟨⟨fun h => (Bool.false_ne_true h).elim, ?_⟩,
      fun _ => rfl, fun h => (Bool.false_ne_true h).elim, rfl, rfl⟩
    rintro ⟨hct, _⟩
    exact (hc hct).elim

/-- Witness for C4: in the demo state (usage 900, limit 1000), a 150-byte
check breaches the budget and signals once; a 50-byte check does not. -/
theorem preAllocOOM_spec_witness :
    (mmDemo.preAllocOOM 150).2 = true ∧
    (mmDemo.preAllocOOM 150).1.exceededCalls = mmDemo.exceededCalls + 1 ∧
    (mmDemo.preAllocOOM 50).2 = false :=
  ⟨(preAllocOOM_spec mmDemo 150).1.mpr ⟨rfl, by decide⟩,
   (preAllocOOM_spec mmDemo 150).2.2.1
     ((preAllocOOM_spec mmDemo 150).1.mpr ⟨rfl, by decide⟩),
   by decide⟩

/-- C5: constructing a suppression scope disables checks; with two nested
scopes, destroying the inner scope leaves checks disabled, and destroying
the outer scope restores exactly the state that held before it. -/
theorem suppressOOM_nesting_restores (mm : MemoryManager) :
    (mm.suppressOOMConstruct).1.m_couldOOM = false ∧
    (((mm.suppressOOMConstruct).1.suppressOOMConstruct).1.suppressOOMDestruct
        ((mm.suppressOOMConstruct).1.suppressOOMConstruct).2).m_couldOOM = false ∧
    ((((mm.suppressOOMConstruct).1.suppressOOMConstruct).1.suppressOOMDestruct
        ((mm.suppressOOMConstruct).1.suppressOOMConstruct).2).suppressOOMDestruct
        (mm.suppressOOMConstruct).2).m_couldOOM = mm.m_couldOOM := by
  simp [MemoryManager.suppressOOMConstruct, MemoryManager.suppressOOMDestruct]

/-- C6: `startStatsInterval` returns true when no interval is active and
false on a second start before a stop (one flag, not a counter), and it
records the usage baseline clamped to non-negative; `stopStatsInterval`
zeroes both interval peaks. -/
theorem statsInterval_spec (mm mm2 : MemoryManager)
    (h : mm.m_statsIntervalActive = false) :
    (mm.startStatsInterval).2 = true ∧
    ((mm.startStatsInterval).1.startStatsInterval).2 = false ∧
    (mm2.startStatsInterval).1.m_stats.peakIntervalUsage
      = max 0 mm2.currentUsage ∧
    0 ≤ (mm2.startStatsInterval).1.m_stats.peakIntervalUsage ∧
    (mm2.stopStatsInterval).1.m_stats.peakIntervalUsage = 0 ∧
    (mm2.stopStatsInterval).1.m_stats.peakIntervalCap = 0 := by
  refine ⟨?_, ?_, ?_, ?_, ?_, ?_⟩ <;>
    simp [MemoryManager.startStatsInterval, MemoryManager.stopStatsInterval,
      MemoryManager.getStatsCopy, refreshStatsImpl, MemoryUsageStats.usage,
      MemoryManager.currentUsage, h]

/-- Witness for C6: in the demo state (no interval active), the first
start returns true, a nested second start returns false, and a stop
zeroes the interval peaks. -/
theorem statsInterval_spec_witness :
    (mmDemo.startStatsInterval).2 = true ∧
    ((mmDemo.startStatsInterval).1.startStatsInterval).2 = false ∧
    (mmDemo.stopStatsInterval).1.m_stats.peakIntervalUsage = 0 :=
  ⟨(statsInterval_spec mmDemo mmDemo rfl).1,
   (statsInterval_spec mmDemo mmDemo rfl).2.1,
   (statsInterval_spec mmDemo mmDemo rfl).2.2.2.2.1⟩

/-- The empty free list. -/
def emptyFreeList : FreeList := { head := none, next := fun _ => none }

/-- C7: on an initially empty free list, after `push a` then `push b`
(distinct addresses), the first pop returns `b`, the second pop returns
`a`, and the list is then empty. -/
theorem freeList_LIFO (a b : Nat) (hab : a ≠ b) :
    (((emptyFreeList.push a).push b).likelyPop).1 = some b ∧
    ((((emptyFreeList.push a).push b).likelyPop).2.likelyPop).1 = some a ∧
    ((((emptyFreeList.push a).push b).likelyPop).2.likelyPop).2.head = none := by
  simp [emptyFreeList, FreeList.push, FreeList.likelyPop, hab]

/-- Witness for C7 at addresses 1 and 2. -/
theorem freeList_LIFO_witness :
    (1 : Nat) ≠ 2 ∧
    (((emptyFreeList.push 1).push 2).likelyPop).1 = some 2 ∧
    ((((emptyFreeList.push 1).push 2).likelyPop).2.likelyPop).1 = some 1 ∧
    ((((emptyFreeList.push 1).push 2).likelyPop).2.likelyPop).2.head = none :=
  ⟨by norm_num, (freeList_LIFO 1 2 (by norm_num)).1,
   (freeList_LIFO 1 2 (by norm_num)).2.1, (freeList_LIFO 1 2 (by norm_num)).2.2⟩

/-- C8: the two pop variants are semantically identical — on any
free-list state they return the same value and leave the same state. -/
theorem likelyPop_eq_unlikelyPop (fl : FreeList) :
    fl.likelyPop = fl.unlikelyPop := by
  rcases fl with ⟨h, nx⟩
  cases h <;> rfl

/-- C9: with no allocator instance present, `sweeping` and `exiting`
report false and `setExiting` is a no-op; none of them touch an absent
instance. -/
theorem absent_instance_lifecycle (c : HeapContext) (h : c.tl_heap = none) :
    c.sweeping = false ∧ c.exiting = false ∧ c.setExiting = c := by
  rcases c with ⟨th, sw⟩
  simp only [] at h
  subst h
  simp [HeapContext.sweeping, HeapContext.exiting, HeapContext.setExiting]

/-- A context with no active allocator instance but the sweep flag set. -/
def ctxDemo : HeapContext := { tl_heap := none, tl_sweeping := true }

/-- Witness for C9: even with the context-local sweep flag raised, the
queries report false and `setExiting` changes nothing. -/
theorem absent_instance_lifecycle_witness :
    ctxDemo.sweeping = false ∧ ctxDemo.exiting = false ∧
      ctxDemo.setExiting = ctxDemo :=
  absent_instance_lifecycle ctxDemo rfl

/-- Counterexample for C10 as stated: with the large-object free path
releasing the alloc-time size (the symmetric accounting the spec
requires of every free), `freeSmallIndex` in bypass mode does decrement
`m_stats.mmUsage` — at `mmDemoBig`, freeing the 64-byte block at 4096
moves usage from 900 to 836 — and a bypass-mode alloc/free pair at
class index 3 does return usage to its pre-allocation value. -/
theorem bypass_freeSmallIndex_counterexample :
    mmDemoBig.m_bypassSlabAlloc = true ∧
    (mmDemoBig.freeSmallIndex 4096 3).m_stats.mmUsage
      ≠ mmDemoBig.m_stats.mmUsage ∧
    mmDemoBypass.m_bypassSlabAlloc = true ∧
    ((mmDemoBypass.mallocSmallIndex 3).1.freeSmallIndex
        (mmDemoBypass.mallocSmallIndex 3).2 3).m_stats.mmUsage
      = mmDemoBypass.m_stats.mmUsage := by
  refine ⟨rfl, ?_, rfl, ?_⟩ <;> decide

/-- C10 (amended): in bypass-slab-allocation mode, `freeSmallIndex`
decrements the per-index small-allocation count and routes the block to
the large-object free path without pushing onto any free list;
`freeSmallIndex` performs no slab accounting of its own — the usage
counter is instead decremented by the large-object free path, which
releases the block's recorded alloc-time size — so a small alloc/free
pair (with the class free list empty, as in steady bypass operation,
where frees never refill the lists) returns `m_stats.mmUsage` to its
pre-allocation value. -/
theorem bypass_freeSmallIndex_frame_amended (mm : MemoryManager)
    (ptr index : Nat) (hb : mm.m_bypassSlabAlloc = true)
    (hfl : (mm.m_freelists index).head = none) :
    (mm.freeSmallIndex ptr index).currentSmallAllocs index
        = mm.currentSmallAllocs index - 1 ∧
    (mm.freeSmallIndex ptr index).m_freelists = mm.m_freelists ∧
    (mm.freeSmallIndex ptr index).bigFreed = ptr :: mm.bigFreed ∧
    (mm.freeSmallIndex ptr index).m_stats.mmUsage
        = mm.m_stats.mmUsage - mm.bigSizes ptr ∧
    ((mm.mallocSmallIndex index).1.freeSmallIndex
        (mm.mallocSmallIndex index).2 index).m_stats.mmUsage
      = mm.m_stats.mmUsage := by
  refine ⟨?_, ?_, ?_, ?_, ?_⟩
  · simp [MemoryManager.freeSmallIndex, hb, MemoryManager.freeBigSize]
  · simp [MemoryManager.freeSmallIndex, hb, MemoryManager.freeBigSize]
  · simp [MemoryManager.freeSmallIndex, hb, MemoryManager.freeBigSize]
  · simp [MemoryManager.freeSmallIndex, hb, MemoryManager.freeBigSize]
  · simp only [MemoryManager.mallocSmallIndex, FreeList.likelyPop, hfl,
      MemoryManager.mallocSmallSizeSlow, MemoryManager.mallocBigSize,
      MemoryManager.freeSmallIndex, MemoryManager.freeBigSize, hb]
    simp [hb]

/-- Witness for the amended C10: in the bypass demo state (all free
lists empty), freeing at class index 3 decrements the count, and the
alloc/free pair at index 3 — served through the large-object path —
restores `mmUsage` to 900. -/
theorem bypass_freeSmallIndex_frame_amended_witness :
    mmDemoBypass.m_bypassSlabAlloc = true ∧
    (mmDemoBypass.m_freelists 3).head = none ∧
    (mmDemoBypass.freeSmallIndex 4096 3).currentSmallAllocs 3
        = mmDemoBypass.currentSmallAllocs 3 - 1 ∧
    ((mmDemoBypass.mallocSmallIndex 3).1.freeSmallIndex
        (mmDemoBypass.mallocSmallIndex 3).2 3).m_stats.mmUsage
      = mmDemoBypass.m_stats.mmUsage :=
  ⟨rfl, rfl,
   (bypass_freeSmallIndex_frame_amended mmDemoBypass 4096 3 rfl rfl).1,
   (bypass_freeSmallIndex_frame_amended mmDemoBypass 4096 3 rfl rfl).2.2.2.2⟩

end HPHP
